import Mathlib

/-!
Verification development for the `amc-peripheral` Discord-integration service.

This file gives a shallow embedding, in Lean 4, of the core subsystems of the
repository and proves the specified properties about them:

* username/content framing
  (`src/amc_peripheral/bot/translation_cog.py`, `extract_username_and_content`
  and `format_with_username`);
* the bidirectional language-channel translation fan-out
  (`src/amc_peripheral/bot/translation_cog.py`, `on_message`, section 2);
* the rolling context buffers (same file, the `append` / `pop(0)` pattern);
* the agentic tool-calling dispatch loop
  (`src/amc_peripheral/bot/knowledge_cog.py::_call_llm_with_tools`, cap 10, and
  `src/amc_peripheral/devbot/devbot_cog.py::_call_llm_with_tools`, cap 20);
* the raw read-only SQL query guard
  (`src/amc_peripheral/bot/game_db.py::execute_raw_query`);
* the sliding-window rate limiter
  (`src/amc_peripheral/utils/rate_limiter.py::RateLimiter.check`).

External collaborators (the LLM service, Discord transport, SQLite cursor,
clock) are modelled as explicit function parameters; all Python functions of
the repository that the claims mention are translated into executable Lean
definitions below, keeping the source names where Lean allows.
-/

namespace AmcPeripheral

/-! ## Character/string helpers

Python string primitives used by the embedded code, modelled on `List Char`.
The inputs relevant here are ASCII, for which `Char.isWhitespace`,
`Char.toUpper` and the regex class `\s` agree with Python's semantics. -/

/-- Python `str.strip()` on a character list: drop whitespace from both ends. -/
def stripChars (s : List Char) : List Char :=
  ((s.dropWhile Char.isWhitespace).reverse.dropWhile Char.isWhitespace).reverse

/-- Python `needle in hay` substring test on character lists. -/
def listContainsSub (needle hay : List Char) : Bool :=
  hay.tails.any (fun t => needle.isPrefixOf t)

/-- Python `str.upper()` (ASCII case mapping). -/
def upperChars (s : List Char) : List Char := s.map Char.toUpper

/-! ## Username/content framing

Model of `TranslationCog.extract_username_and_content` (translation_cog.py
lines 95-121) and `TranslationCog.format_with_username` (lines 123-128). -/

/-- The pattern `^<t:\d+:[tTdDfFR]>\s*` (translation_cog.py line 107): when the
message starts with a Discord timestamp token, return the rest of the message
with the token and the following whitespace removed. -/
def matchTimestampPrefix : List Char → Option (List Char)
  | '<' :: 't' :: ':' :: rest =>
    let digits := rest.takeWhile Char.isDigit
    let after := rest.dropWhile Char.isDigit
    if digits.isEmpty then none
    else
      match after with
      | ':' :: f :: '>' :: rest' =>
        if f ∈ (['t', 'T', 'd', 'D', 'f', 'F', 'R'] : List Char) then
          some (rest'.dropWhile Char.isWhitespace)
        else none
      | _ => none
  | _ => none

/-- `re.sub(r'^<t:\d+:[tTdDfFR]>\s*', '', message)`: strip the timestamp
prefix when present, otherwise leave the message unchanged (the pattern is
anchored, so at most one occurrence is replaced). -/
def stripTimestampPrefix (s : List Char) : List Char :=
  (matchTimestampPrefix s).getD s

/-- Scanner for the lazy group of `^(?:\*\*([^*]+?)(?::\*\*|\*\*:))` after the
leading `**` and the first (mandatory) group character have been consumed:
`acc` holds the group read so far (reversed).  At each position the alternation
`:\*\*` / `\*\*:` is tried first (lazy `+?`); only a non-`*` character may
extend the group. -/
def boldScanAux (acc : List Char) : List Char → Option (List Char × List Char)
  | [] => none
  | c :: rest =>
    if c = ':' ∧ rest.take 2 = ['*', '*'] then some (acc.reverse, rest.drop 2)
    else if c = '*' ∧ rest.take 2 = ['*', ':'] then some (acc.reverse, rest.drop 2)
    else if c = '*' then none
    else boldScanAux (c :: acc) rest

/-- `re.match(r'^(?:\*\*([^*]+?)(?::\*\*|\*\*:))\s*(.*)$', message, re.DOTALL)`
(translation_cog.py line 112), returning the raw group 1 and the remainder of
the message after the alternation (before `\s*` is applied). -/
def matchBoldUsername : List Char → Option (List Char × List Char)
  | '*' :: '*' :: c :: rest => if c = '*' then none else boldScanAux [c] rest
  | _ => none

/-- Scanner for the lazy group of `^([^:]+?):` after the first (mandatory)
group character has been consumed: the group ends at the first colon. -/
def simpleScanAux (acc : List Char) : List Char → Option (List Char × List Char)
  | [] => none
  | c :: rest =>
    if c = ':' then some (acc.reverse, rest) else simpleScanAux (c :: acc) rest

/-- `re.match(r'^([^:]+?):\s*(.*)$', message, re.DOTALL)` (translation_cog.py
line 117), returning the raw group 1 and the remainder after the colon. -/
def matchSimpleUsername : List Char → Option (List Char × List Char)
  | c :: rest => if c = ':' then none else simpleScanAux [c] rest
  | [] => none

/-- `TranslationCog.extract_username_and_content` (translation_cog.py lines
95-121).  Strips a leading timestamp token, then tries the bold patterns
(`**Name:**` / `**Name**:` as one alternation), then the plain `Name:`
fallback guarded by `len(match.group(1)) < 50`; both captured groups go
through `.strip()` and `\s*` is consumed before group 2. -/
def extract_username_and_content (message : String) : Option String × String :=
  let m := stripTimestampPrefix message.data
  match matchBoldUsername m with
  | some (u, rest) =>
    (some (String.mk (stripChars u)),
     String.mk (stripChars (rest.dropWhile Char.isWhitespace)))
  | none =>
    match matchSimpleUsername m with
    | some (u, rest) =>
      if u.length < 50 then
        (some (String.mk (stripChars u)),
         String.mk (stripChars (rest.dropWhile Char.isWhitespace)))
      else (none, String.mk m)
    | none => (none, String.mk m)

/-- `TranslationCog.format_with_username` (translation_cog.py lines 123-128).
`if username and not is_bot` — a `None` or empty username is falsy. -/
def format_with_username (username : Option String) (content : String)
    (is_bot : Bool := false) : String :=
  match username with
  | some u => if u ≠ "" ∧ ¬is_bot then "**" ++ u ++ "**: " ++ content else content
  | none => content

/-! ## Read-only raw SQL query execution

Model of `execute_raw_query` (game_db.py lines 23-84).  The SQLite cursor is
an external collaborator, modelled as a function from the SQL text to either
an `OperationalError` message or the full row stream of the query;
`cursor.fetchmany(MAX_ROWS)` takes the first `MAX_ROWS` rows and the following
`cursor.fetchone()` probes whether at least one more row exists. -/

/-- `BLOCKED_KEYWORDS` (game_db.py line 18). -/
def BLOCKED_KEYWORDS : List String := ["ATTACH", "PRAGMA", "LOAD_EXTENSION", "DETACH"]

/-- `MAX_ROWS` (game_db.py line 19). -/
def MAX_ROWS : Nat := 100

/-- The returned dict of `execute_raw_query`: either `{"error": ...}` or
`{"results": ..., "count": ..., "truncated"?: ...}` (the `truncated`/`note`
keys are present exactly in the `has_more` branch). -/
inductive RawQueryResult (α : Type) where
  | error (msg : String)
  | results (rows : List α) (count : Nat) (truncated : Bool)
deriving DecidableEq, Repr

/-- The guard of `execute_raw_query` (game_db.py lines 37-47), applied before
any database access: `sql.strip()`, `sql.upper()`, the blocked-keyword
substring scan in list order, then the `startswith("SELECT")` check.
Returns `some errorMessage` when the statement is rejected. -/
def rawQueryGuard (sql : String) : Option String :=
  let sqlStripped := stripChars sql.data
  let sqlUpper := upperChars sqlStripped
  match BLOCKED_KEYWORDS.find? (fun k => listContainsSub k.data sqlUpper) with
  | some k => some ("Query contains blocked keyword: " ++ k)
  | none =>
    if ¬("SELECT".data.isPrefixOf sqlUpper) then some "Only SELECT queries are allowed"
    else none

/-- `execute_raw_query` (game_db.py lines 23-84).  `db` is the read-only
SQLite connection: it is consulted only when the guard accepts. -/
def execute_raw_query {α : Type} (db : String → Except String (List α))
    (sql : String) : RawQueryResult α :=
  match rawQueryGuard sql with
  | some e => .error e
  | none =>
    match db (String.mk (stripChars sql.data)) with
    | .error e => .error ("SQL error: " ++ e)
    | .ok rows =>
      let results := rows.take MAX_ROWS
      let has_more := decide (MAX_ROWS < rows.length)
      if has_more then .results results results.length true
      else .results results results.length false

/-! ## Sliding-window rate limiter

Model of `RateLimiter` (rate_limiter.py lines 7-45).  `datetime.now()` is the
external clock; times are integers (seconds), the period is
`period_minutes * 60` seconds. -/

/-- `RateLimiter` state: `max_calls`, the window length in seconds, and the
recorded call times (`self.calls`). -/
structure RateLimiter where
  max_calls : Nat
  period : Int
  calls : List Int
deriving DecidableEq, Repr

/-- `RateLimiter.__init__(max_calls, period_minutes)`. -/
def RateLimiter.init (max_calls : Nat) (period_minutes : Int) : RateLimiter :=
  { max_calls := max_calls, period := period_minutes * 60, calls := [] }

/-- `RateLimiter.check` (rate_limiter.py lines 22-41) at clock time `now`:
expired calls are filtered out (`c > now - period`), then either the call is
rejected with the wait until the oldest recorded call leaves the window, or
the call time is recorded and the call allowed. -/
def RateLimiter.check (rl : RateLimiter) (now : Int) :
    (Bool × Option Int) × RateLimiter :=
  let calls := rl.calls.filter (fun c => now - rl.period < c)
  if rl.max_calls ≤ calls.length then
    let oldest := calls.foldr min (calls.headD 0)
    ((false, some (oldest + rl.period - now)), { rl with calls := calls })
  else
    ((true, none), { rl with calls := calls ++ [now] })

/-! ## Agentic dispatch loop

Model of `_call_llm_with_tools`: `knowledge_cog.py` lines 418-486
(`max_iterations = 10`) and `devbot_cog.py` lines 262-325
(`max_iterations = 20`); the two bodies are identical up to the iteration cap,
the tool executor and the serialization of the tool result (modelled inside
`executeTool`, which returns the final tool-message content string).

The Language Model Service is a function from the conversation to the
response message (`none` models an empty `completion.choices`).
`json.loads` is the Python stdlib parser: a collaborator returning either a
parsed value or a raised `json.JSONDecodeError` — in the source it is called
at knowledge_cog.py line 465 / devbot_cog.py line 304, *outside* any
`try`/`except`. -/

/-- One tool call of an assistant response (`tool_call.id`,
`tool_call.function.name`, `tool_call.function.arguments`). -/
structure ToolCall where
  id : String
  name : String
  arguments : String
deriving DecidableEq, Repr

/-- `completion.choices[0].message`: optional text content plus tool calls
(an absent/`None` tool-call list is the empty list). -/
structure AssistantMsg where
  content : Option String
  tool_calls : List ToolCall
deriving DecidableEq, Repr

/-- A conversation entry, as appended by the loop. -/
inductive ChatMsg where
  | system (content : String)
  | user (content : String)
  | assistant (m : AssistantMsg)
  | tool (tool_call_id : String) (name : String) (content : String)
deriving DecidableEq, Repr

/-- Outcome of one `_call_llm_with_tools` invocation: either the returned
string, or an exception propagating out of the method uncaught. -/
inductive LoopOutcome where
  | answer (text : String)
  | raised (err : String)
deriving DecidableEq, Repr

/-- The fixed capped-complexity message (knowledge_cog.py line 486,
devbot_cog.py line 325). -/
def tooComplexMsg : String :=
  "I'm sorry, I couldn't complete your request due to complexity. Please try simplifying your question."

/-- Fallback for an empty `completion.choices` (knowledge_cog.py line 453,
devbot_cog.py line 292). -/
def emptyBackendMsg : String := "I received an empty response from my AI backend."

/-- Fallback for falsy assistant content (knowledge_cog.py line 457,
devbot_cog.py line 296). -/
def noResponseMsg : String := "I don't have a response."

/-- The tool-execution block of the loop body (knowledge_cog.py lines 463-482,
devbot_cog.py lines 302-321): for each tool call in order, parse its
arguments with `json.loads` — an unparseable argument string raises, aborting
the whole loop — then run the executor and build the tool-role message
carrying the result under the same `tool_call_id`. -/
def execToolCalls {α : Type} (jsonLoads : String → Except String α)
    (executeTool : String → α → String) :
    List ToolCall → Except String (List ChatMsg)
  | [] => .ok []
  | tc :: rest =>
    match jsonLoads tc.arguments with
    | .error e => .error e
    | .ok args =>
      let tool_result := executeTool tc.name args
      match execToolCalls jsonLoads executeTool rest with
      | .error e => .error e
      | .ok ms => .ok (ChatMsg.tool tc.id tc.name tool_result :: ms)

/-- The `while iteration < max_iterations` loop of `_call_llm_with_tools`,
recursing on the remaining iteration budget.  Returns the outcome together
with the number of model invocations performed. -/
def callLlmWithToolsAux {α : Type} (model : List ChatMsg → Option AssistantMsg)
    (jsonLoads : String → Except String α) (executeTool : String → α → String) :
    Nat → List ChatMsg → LoopOutcome × Nat
  | 0, _ => (.answer tooComplexMsg, 0)
  | fuel + 1, messages =>
    match model messages with
    | none => (.answer emptyBackendMsg, 1)
    | some response_message =>
      match response_message.tool_calls with
      | [] =>
        (.answer (match response_message.content with
                  | some c => if c = "" then noResponseMsg else c
                  | none => noResponseMsg), 1)
      | _ :: _ =>
        match execToolCalls jsonLoads executeTool response_message.tool_calls with
        | .error e => (.raised e, 1)
        | .ok toolMsgs =>
          let r := callLlmWithToolsAux model jsonLoads executeTool fuel
            (messages ++ [ChatMsg.assistant response_message] ++ toolMsgs)
          (r.1, r.2 + 1)

/-- `KnowledgeCog._call_llm_with_tools` (knowledge_cog.py lines 418-486):
`max_iterations = 10`. -/
def knowledge_call_llm_with_tools {α : Type}
    (model : List ChatMsg → Option AssistantMsg)
    (jsonLoads : String → Except String α) (executeTool : String → α → String)
    (messages : List ChatMsg) : LoopOutcome × Nat :=
  callLlmWithToolsAux model jsonLoads executeTool 10 messages

/-- `DevBotCog._call_llm_with_tools` (devbot_cog.py lines 262-325):
`max_iterations = 20`. -/
def devbot_call_llm_with_tools {α : Type}
    (model : List ChatMsg → Option AssistantMsg)
    (jsonLoads : String → Except String α) (executeTool : String → α → String)
    (messages : List ChatMsg) : LoopOutcome × Nat :=
  callLlmWithToolsAux model jsonLoads executeTool 20 messages

/-! ### Tool executor of the dev-assistant agent

Model of `DevBotCog._execute_tool` (devbot_cog.py lines 327-374).  The five
codebase tools are external collaborators returning either a result or a
raised exception; the result serialization (`json.dumps` at the call site) is
folded into the result string.  Literal braces in the JSON-ish error strings
are written with their escape codes. -/

/-- The underlying `self.tools` collaborator of the dev bot. -/
structure CodebaseTools (α : Type) where
  search_files : α → Except String String
  read_file : α → Except String String
  grep_search : α → Except String String
  list_directory : α → Except String String
  nix_hash_url : α → Except String String

/-- `{"error": "<e>"}` as returned by `_execute_tool`. -/
def jsonError (e : String) : String := "\x7b\"error\": \"" ++ e ++ "\"\x7d"

/-- `DevBotCog._execute_tool` (devbot_cog.py lines 327-374): a total function
— the `self.tools is None` guard, the `if`/`elif` name dispatch, the unknown
tool branch, and the `try`/`except` that converts any tool exception into an
error value. -/
def devbot_execute_tool {α : Type} (toolsReady : Bool) (tools : CodebaseTools α)
    (function_name : String) (arguments : α) : String :=
  if ¬toolsReady then jsonError "Codebase tools not initialized"
  else
    let dispatched : Option (Except String String) :=
      if function_name = "search_files" then some (tools.search_files arguments)
      else if function_name = "read_file" then some (tools.read_file arguments)
      else if function_name = "grep_search" then some (tools.grep_search arguments)
      else if function_name = "list_directory" then some (tools.list_directory arguments)
      else if function_name = "nix_hash_url" then some (tools.nix_hash_url arguments)
      else none
    match dispatched with
    | none => jsonError ("Unknown tool: " ++ function_name)
    | some (.ok s) => s
    | some (.error e) => jsonError ("Tool execution failed: " ++ e)

/-! ## Language-channel translation relay fan-out

Model of section 2 of `TranslationCog.on_message` (translation_cog.py lines
316-379): the `LANGUAGE_CHANNELS` bidirectional fan-out for user messages.
The run of the handler is rendered as the list of its externally visible
effects, in order.  The LLM translation collaborators may raise
(`Except.error`); `self.translate` at line 325 is *not* wrapped in a `try`, so
its exception aborts the whole handler, whereas the per-target block at lines
345-373 is wrapped and a failure there only skips that target's send.
The rolling-context append at lines 376-379 is modelled separately by
`appendTrim` below. -/

/-- An externally visible effect of the fan-out. -/
inductive RelayEffect where
  /-- A call `self.translate(content, lang, ...)` (source language → English),
  with the text passed and the source language. -/
  | pivotCall (text : String) (srcLang : String)
  /-- A call `self.translate_to_language(text, target_language, ...)`. -/
  | targetCall (text : String) (targetLang : String)
  /-- `announce_in_game(..., f"{display_name}: {translation}", ...)`. -/
  | announce (text : String)
  /-- `await target_channel.send(formatted)`. -/
  | send (channelId : Nat) (text : String)
deriving DecidableEq, Repr

/-- The inbound Discord message, as the handler sees it. -/
structure InMsg where
  channelId : Nat
  content : String
  authorDisplayName : String
  authorIsBot : Bool
  /-- `message.author == self.bot.user`. -/
  authorIsSelf : Bool
deriving DecidableEq, Repr

/-- The handler's environment: the `LANGUAGE_CHANNELS` dict (an ordered
association list, as Python dicts preserve insertion order), the truthiness of
`self.bot.get_channel`, and the two LLM collaborators, returning the
`.translation` field of the parsed response or raising. -/
structure RelayEnv where
  channels : List (String × Nat)
  hasChannel : Nat → Bool
  /-- `self.translate(message, language, ...)` → `res.translation`. -/
  translate : String → String → Except String String
  /-- `self.translate_to_language(message, target_language, ...)` →
  `res.translation`. -/
  translate_to_language : String → String → Except String String

/-- `username or message.author.display_name` applied to the extraction of
the original message (translation_cog.py lines 365-367): an absent or empty
extracted username falls back to the author's display name. -/
def sendUsername (msg : InMsg) : String :=
  match (extract_username_and_content msg.content).1 with
  | some u => if u = "" then msg.authorDisplayName else u
  | none => msg.authorDisplayName

/-- The per-target body of the `BIDIRECTIONAL` loop (translation_cog.py lines
343-373) for one `(target_lang, target_channel_id)` entry.  `lang`/`chan` is
the matched source entry and `translation` the canonical pivot text computed
at lines 325-334.  The surrounding `try`/`except` catches a translation
failure, so a failure yields no send but the issued call is still visible. -/
def perTargetEffects (env : RelayEnv) (msg : InMsg) (lang : String) (chan : Nat)
    (translation : String) (target : String × Nat) : List RelayEffect :=
  if target.1 ≠ lang ∧ target.2 ≠ chan then
    if env.hasChannel target.2 then
      let afterCall : Except String String → List RelayEffect := fun r =>
        match r with
        | .error _ => []
        | .ok t =>
          if t ≠ "" then
            [.send target.2 (format_with_username (some (sendUsername msg)) t
              msg.authorIsSelf)]
          else []
      if lang = "english" then
        .targetCall msg.content target.1 ::
          afterCall (env.translate_to_language msg.content target.1)
      else if target.1 = "english" then
        -- `res_target = res`: reuse the pivot translation, no extra LLM call
        afterCall (.ok translation)
      else
        .targetCall translation target.1 ::
          afterCall (env.translate_to_language translation target.1)
    else []
  else []

/-- The body run for the matched source entry `(lang, chan)` (translation_cog.py
lines 323-373): compute the pivot translation (one `self.translate` call for a
non-English source, not under a `try` — the `Bool` is `false` when that call
raised), announce in game, then the per-target loop. -/
def sourceBlock (env : RelayEnv) (msg : InMsg) (lang : String) (chan : Nat) :
    List RelayEffect × Bool :=
  if lang ≠ "english" then
    match env.translate msg.content lang with
    | .error _ => ([.pivotCall msg.content lang], false)
    | .ok translation =>
      (.pivotCall msg.content lang ::
        .announce (msg.authorDisplayName ++ ": " ++ translation) ::
        (env.channels.map (perTargetEffects env msg lang chan translation)).flatten,
       true)
  else
    let translation := msg.content
    (.announce (msg.authorDisplayName ++ ": " ++ translation) ::
      (env.channels.map (perTargetEffects env msg lang chan translation)).flatten,
     true)

/-- The outer `for lang, channel_id in LANGUAGE_CHANNELS.items()` loop
(translation_cog.py lines 319-379) with the removed-language skip at lines
320-321; an exception escaping a matched body aborts the remaining
iterations. -/
def processLangList (env : RelayEnv) (msg : InMsg) :
    List (String × Nat) → List RelayEffect
  | [] => []
  | (lang, chan) :: rest =>
    if lang = "malay" ∨ lang = "tagalog" then processLangList env msg rest
    else if msg.channelId = chan then
      match sourceBlock env msg lang chan with
      | (effs, true) => effs ++ processLangList env msg rest
      | (effs, false) => effs
    else processLangList env msg rest

/-- The `LANGUAGE_CHANNELS` fan-out of `on_message` for one inbound message
(translation_cog.py lines 316-379), guarded by `if not message.author.bot`. -/
def processLangChannels (env : RelayEnv) (msg : InMsg) : List RelayEffect :=
  if ¬msg.authorIsBot then processLangList env msg env.channels else []

/-- The default `LANGUAGE_CHANNELS` configuration (settings.py lines 94-106). -/
def LANGUAGE_CHANNELS : List (String × Nat) :=
  [("english", 1346733584169435136),
   ("indonesian", 1346744118130245682),
   ("malay", 1346744692137791509),
   ("thai", 1346744784185983008),
   ("vietnamese", 1377566939811024896),
   ("tagalog", 1346744822660206623),
   ("chinese", 1348247390099996763),
   ("japanese", 1364643230443900928)]

/-! ## Rolling context buffers

Model of the append-and-trim pattern used for `self.messages`
(translation_cog.py lines 311-314 and 376-379), `self.general_messages`
(lines 403-406 and 431-435) and `self.eco_game_messages` (lines 461-464 and
492-496): `list.append(entry)` followed by `if len(list) > 15: list.pop(0)`. -/

/-- One append-and-trim step of a rolling context buffer. -/
def appendTrim (msgs : List String) (entry : String) : List String :=
  let m := msgs ++ [entry]
  if 15 < m.length then m.drop 1 else m

/-! ## Effect classifiers and a concrete relay environment -/

/-- Is the effect an LLM translation call (`self.translate` or
`self.translate_to_language`)? -/
def isLlmCall : RelayEffect → Bool
  | .pivotCall _ _ => true
  | .targetCall _ _ => true
  | _ => false

/-- Is the effect a call of `self.translate` (source → pivot)? -/
def isPivotCall : RelayEffect → Bool
  | .pivotCall _ _ => true
  | _ => false

/-- Is the effect an outbound channel send? -/
def isSend : RelayEffect → Bool
  | .send _ _ => true
  | _ => false

/-- Is the effect a send to channel `c`? -/
def isSendTo (c : Nat) : RelayEffect → Bool
  | .send c' _ => c' = c
  | _ => false

/-- A concrete relay environment over the default `LANGUAGE_CHANNELS`: every
channel resolvable, and deterministic translation collaborators that tag the
text with the translation performed. -/
def demoEnv : RelayEnv where
  channels := LANGUAGE_CHANNELS
  hasChannel := fun _ => true
  translate := fun t _l => .ok ("EN " ++ t)
  translate_to_language := fun t l => .ok (l ++ " " ++ t)

/-- A user message in the default Thai language channel. -/
def thaiMsg : InMsg where
  channelId := 1346744784185983008
  content := "hello"
  authorDisplayName := "Somchai"
  authorIsBot := false
  authorIsSelf := false

/-- A user message in the default (removed) Malay language channel. -/
def malayMsg : InMsg where
  channelId := 1346744692137791509
  content := "hello"
  authorDisplayName := "Amin"
  authorIsBot := false
  authorIsSelf := false

/-- A user message in the default (removed) Tagalog language channel. -/
def tagalogMsg : InMsg where
  channelId := 1346744822660206623
  content := "hello"
  authorDisplayName := "Juan"
  authorIsBot := false
  authorIsSelf := false

/-! ## Rolling context lemmas (claim C7) -/

lemma appendTrim_length_le (msgs : List String) (entry : String)
    (h : msgs.length ≤ 15) : (appendTrim msgs entry).length ≤ 15 := by
  unfold appendTrim
  by_cases h15 : 15 < (msgs ++ [entry]).length
  · rw [if_pos h15]
    simp only [List.length_drop, List.length_append, List.length_singleton]
    omega
  · rw [if_neg h15]
    simp only [List.length_append, List.length_singleton] at h15 ⊢
    omega

lemma appendTrim_of_lt (msgs : List String) (entry : String)
    (h : msgs.length < 15) : appendTrim msgs entry = msgs ++ [entry] := by
  unfold appendTrim
  rw [if_neg]
  simp only [List.length_append, List.length_singleton]
  omega

lemma appendTrim_of_eq (msgs : List String) (entry : String)
    (h : msgs.length = 15) : appendTrim msgs entry = msgs.drop 1 ++ [entry] := by
  unfold appendTrim
  rw [if_pos]
  · rw [List.drop_append_of_le_length (by omega)]
  · simp only [List.length_append, List.length_singleton]
    omega

lemma foldl_appendTrim_id (l : List String) (h : l.length ≤ 15) :
    List.foldl appendTrim [] l = l := by
  induction l using List.reverseRecOn with
  | nil => rfl
  | append_singleton xs x ih =>
    simp only [List.length_append, List.length_singleton] at h
    rw [List.foldl_append, List.foldl_cons, List.foldl_nil,
      ih (by omega), appendTrim_of_lt xs x (by omega)]

lemma foldl_appendTrim_drop (l : List String) (h : 15 ≤ l.length) :
    List.foldl appendTrim [] l = l.drop (l.length - 15) := by
  induction l using List.reverseRecOn with
  | nil => simp at h
  | append_singleton xs x ih =>
    simp only [List.length_append, List.length_singleton] at h
    rw [List.foldl_append, List.foldl_cons, List.foldl_nil]
    rcases Nat.lt_or_ge xs.length 15 with hlt | hge
    · have hx : xs.length = 14 := by omega
      rw [foldl_appendTrim_id xs (by omega), appendTrim_of_lt xs x hlt]
      simp [hx]
    · have hlen : (List.foldl appendTrim [] xs).length = 15 := by
        rw [ih hge, List.length_drop]; omega
      have harith : (xs ++ [x]).length - 15 = xs.length - 14 := by
        simp only [List.length_append, List.length_singleton]; omega
      rw [appendTrim_of_eq _ x hlen, ih hge, List.drop_drop, harith,
        List.drop_append_of_le_length (by omega),
        show xs.length - 15 + 1 = xs.length - 14 by omega]

/-- C7: every rolling context buffer (game-chat, general, eco — all three use
the same `append` then `pop(0)`-on-overflow step, modelled by `appendTrim`)
holds at most 15 entries at all times: a step on a buffer of at most 15
entries leaves at most 15; below capacity the entry is appended; at capacity
exactly the oldest entry is evicted; and folding more than 15 entries from the
empty buffer leaves exactly the last 15 (FIFO, oldest evicted first). -/
theorem C7_rolling_context_fifo :
    (∀ (msgs : List String) (entry : String), msgs.length ≤ 15 →
        (appendTrim msgs entry).length ≤ 15)
    ∧ (∀ (msgs : List String) (entry : String), msgs.length < 15 →
        appendTrim msgs entry = msgs ++ [entry])
    ∧ (∀ (msgs : List String) (entry : String), msgs.length = 15 →
        appendTrim msgs entry = msgs.drop 1 ++ [entry])
    ∧ (∀ entries : List String, 15 < entries.length →
        List.foldl appendTrim [] entries = entries.drop (entries.length - 15)
        ∧ (List.foldl appendTrim [] entries).length = 15) := by
  refine ⟨appendTrim_length_le, appendTrim_of_lt, appendTrim_of_eq, ?_⟩
  intro entries h
  refine ⟨foldl_appendTrim_drop entries (by omega), ?_⟩
  rw [foldl_appendTrim_drop entries (by omega), List.length_drop]
  omega

/-- Witness for C7 at a concrete input: appending 16 entries to an empty
rolling context leaves exactly the last 15. -/
theorem C7_rolling_context_fifo_witness :
    List.foldl appendTrim [] ((List.range 16).map toString)
      = ((List.range 16).map toString).drop 1
    ∧ (List.foldl appendTrim [] ((List.range 16).map toString)).length = 15 := by
  have h := C7_rolling_context_fifo.2.2.2 ((List.range 16).map toString) (by simp)
  simpa using h

/-! ## Rate limiter (claim C9) -/

/-- C9: a `RateLimiter(max_calls=3, period_minutes=5)` allows three calls
inside the window, rejects a fourth call still inside the window with a
strictly positive wait equal to the time until the oldest recorded call
leaves the window, and allows a call again once the clock has advanced past
the window of all recorded calls. -/
theorem C9_rate_limiter_boundary (t1 t2 t3 t4 t5 : Int)
    (h12 : t1 ≤ t2) (h23 : t2 ≤ t3) (h34 : t3 ≤ t4)
    (hwin : t4 - 300 < t1) (hpast : t3 + 300 ≤ t5) :
    ((RateLimiter.init 3 5).check t1).1 = (true, none)
    ∧ (((RateLimiter.init 3 5).check t1).2.check t2).1 = (true, none)
    ∧ ((((RateLimiter.init 3 5).check t1).2.check t2).2.check t3).1 = (true, none)
    ∧ (((((RateLimiter.init 3 5).check t1).2.check t2).2.check t3).2.check t4).1
        = (false, some (t1 + 300 - t4))
    ∧ 0 < t1 + 300 - t4
    ∧ ((((((RateLimiter.init 3 5).check t1).2.check t2).2.check t3).2.check t4).2.check t5).1
        = (true, none) := by
  have k21 : t2 - 300 < t1 := by omega
  have k31 : t3 - 300 < t1 := by omega
  have k32 : t3 - 300 < t2 := by omega
  have k41 : t4 - 300 < t1 := by omega
  have k42 : t4 - 300 < t2 := by omega
  have k43 : t4 - 300 < t3 := by omega
  have k51 : ¬(t5 - 300 < t1) := by omega
  have k52 : ¬(t5 - 300 < t2) := by omega
  have k53 : ¬(t5 - 300 < t3) := by omega
  have e1 : (RateLimiter.init 3 5).check t1 = ((true, none), ⟨3, 300, [t1]⟩) := by
    simp [RateLimiter.init, RateLimiter.check]
  have e2 : (RateLimiter.mk 3 300 [t1]).check t2 = ((true, none), ⟨3, 300, [t1, t2]⟩) := by
    simp [RateLimiter.check, k21]
  have e3 : (RateLimiter.mk 3 300 [t1, t2]).check t3
      = ((true, none), ⟨3, 300, [t1, t2, t3]⟩) := by
    simp [RateLimiter.check, k31, k32]
  have e4 : (RateLimiter.mk 3 300 [t1, t2, t3]).check t4
      = ((false, some (t1 + 300 - t4)), ⟨3, 300, [t1, t2, t3]⟩) := by
    simp only [RateLimiter.check, List.filter_cons, List.filter_nil,
      decide_eq_true_eq, if_pos k41, if_pos k42, if_pos k43]
    rw [if_pos (by simp)]
    have hmin : List.foldr min (List.headD [t1, t2, t3] 0) [t1, t2, t3] = t1 := by
      simp only [List.foldr, List.headD]
      omega
    rw [hmin]
  have e5 : (RateLimiter.mk 3 300 [t1, t2, t3]).check t5 = ((true, none), ⟨3, 300, [t5]⟩) := by
    simp [RateLimiter.check, k51, k52, k53]
  rw [e1]
  rw [show (((true, none) : Bool × Option Int), (⟨3, 300, [t1]⟩ : RateLimiter)).2
      = (⟨3, 300, [t1]⟩ : RateLimiter) from rfl, e2]
  refine ⟨rfl, rfl, ?_⟩
  rw [show (((true, none) : Bool × Option Int), (⟨3, 300, [t1, t2]⟩ : RateLimiter)).2
      = (⟨3, 300, [t1, t2]⟩ : RateLimiter) from rfl, e3]
  refine ⟨rfl, ?_⟩
  rw [show (((true, none) : Bool × Option Int), (⟨3, 300, [t1, t2, t3]⟩ : RateLimiter)).2
      = (⟨3, 300, [t1, t2, t3]⟩ : RateLimiter) from rfl, e4]
  refine ⟨rfl, by omega, ?_⟩
  rw [show (((false, some (t1 + 300 - t4)) : Bool × Option Int),
      (⟨3, 300, [t1, t2, t3]⟩ : RateLimiter)).2 = (⟨3, 300, [t1, t2, t3]⟩ : RateLimiter)
      from rfl, e5]

/-- Witness for C9 at the spec's example schedule (seconds): calls at
t = 0, 60, 120 succeed, the call at t = 180 is rejected with a 120-second
wait, and a call at t = 420 (past the window) succeeds. -/
theorem C9_rate_limiter_boundary_witness :
    ((RateLimiter.init 3 5).check 0).1 = (true, none)
    ∧ (((RateLimiter.init 3 5).check 0).2.check 60).1 = (true, none)
    ∧ ((((RateLimiter.init 3 5).check 0).2.check 60).2.check 120).1 = (true, none)
    ∧ (((((RateLimiter.init 3 5).check 0).2.check 60).2.check 120).2.check 180).1
        = (false, some 120)
    ∧ (0 : Int) < 120
    ∧ ((((((RateLimiter.init 3 5).check 0).2.check 60).2.check 120).2.check 180).2.check 420).1
        = (true, none) := by
  have h := C9_rate_limiter_boundary 0 60 120 180 420 (by norm_num) (by norm_num)
    (by norm_num) (by norm_num) (by norm_num)
  simpa using h

/-! ## Raw query guard (claim C4) -/

/-- C4: `execute_raw_query` rejects — returning an error value for every
database, i.e. without executing — every statement that (after stripping)
does not start with `SELECT` case-insensitively, and every statement
containing a blocked keyword as a case-insensitive substring anywhere; an
accepted query returns at most 100 rows with the truncation flag set exactly
when more rows exist.  `"SELECT * FROM vehicles"` is accepted,
`"select * from x; ATTACH 'y' as z"` is rejected for the blocked keyword, and
`"DROP TABLE x"` is rejected for not starting with SELECT. -/
theorem C4_raw_query_guard :
    (∀ (sql e : String), rawQueryGuard sql = some e →
      ∀ (α : Type) (db : String → Except String (List α)),
        execute_raw_query db sql = .error e)
    ∧ (∀ sql : String,
        ¬("SELECT".data.isPrefixOf (upperChars (stripChars sql.data)) = true) →
        (rawQueryGuard sql).isSome)
    ∧ (∀ (sql k : String), k ∈ BLOCKED_KEYWORDS →
        listContainsSub k.data (upperChars (stripChars sql.data)) = true →
        (rawQueryGuard sql).isSome)
    ∧ (∀ (α : Type) (db : String → Except String (List α)) (sql : String)
        (allRows : List α), rawQueryGuard sql = none →
        db (String.mk (stripChars sql.data)) = .ok allRows →
        ∃ rows tr, execute_raw_query db sql = .results rows rows.length tr
          ∧ rows.length ≤ 100 ∧ (tr = true ↔ 100 < allRows.length))
    ∧ rawQueryGuard "SELECT * FROM vehicles" = none
    ∧ rawQueryGuard "select * from x; ATTACH 'y' as z"
        = some "Query contains blocked keyword: ATTACH"
    ∧ rawQueryGuard "DROP TABLE x" = some "Only SELECT queries are allowed" := by
  refine ⟨?_, ?_, ?_, ?_, by decide, by decide, by decide⟩
  · intro sql e hg α db
    unfold execute_raw_query
    rw [hg]
  · intro sql hsel
    unfold rawQueryGuard
    cases hf : BLOCKED_KEYWORDS.find?
        (fun k => listContainsSub k.data (upperChars (stripChars sql.data))) with
    | some k => simp [hf]
    | none => simp [hf, hsel]
  · intro sql k hk hsub
    unfold rawQueryGuard
    cases hf : BLOCKED_KEYWORDS.find?
        (fun k => listContainsSub k.data (upperChars (stripChars sql.data))) with
    | some k' => simp [hf]
    | none =>
      rw [List.find?_eq_none] at hf
      exact absurd hsub (by simpa using hf k hk)
  · intro α db sql allRows hg hdb
    refine ⟨allRows.take MAX_ROWS, decide (MAX_ROWS < allRows.length), ?_, ?_, ?_⟩
    · unfold execute_raw_query
      rw [hg, hdb]
      by_cases h : MAX_ROWS < allRows.length
      · simp [h]
      · simp [h]
    · simp [MAX_ROWS]
    · simp [MAX_ROWS]

/-! ## Framing round-trip (claim C3) -/

/-- C4 witness: applying `C4_raw_query_guard` at concrete inputs. -/
theorem C4_raw_query_guard_witness :
    execute_raw_query (fun _ => Except.ok ([1, 2, 3] : List Nat)) "DROP TABLE x"
      = .error "Only SELECT queries are allowed"
    ∧ execute_raw_query (fun _ => Except.ok ([1, 2, 3] : List Nat))
        "select * from x; ATTACH 'y' as z"
      = .error "Query contains blocked keyword: ATTACH" :=
  ⟨C4_raw_query_guard.1 "DROP TABLE x" "Only SELECT queries are allowed"
      (by decide) Nat (fun _ => Except.ok [1, 2, 3]),
   C4_raw_query_guard.1 "select * from x; ATTACH 'y' as z"
      "Query contains blocked keyword: ATTACH"
      (by decide) Nat (fun _ => Except.ok [1, 2, 3])⟩

lemma matchTimestampPrefix_star (l : List Char) :
    matchTimestampPrefix ('*' :: l) = none := rfl

/-- Running the bold-username scanner over a group `q` that contains no `*`
and does not end in `:`, followed by the closing `**:`, finds exactly `q` and
leaves the tail. -/
lemma boldScanAux_run (tail : List Char) : ∀ (q acc : List Char),
    (∀ c ∈ q, c ≠ '*') → q.getLast? ≠ some ':' →
    boldScanAux acc (q ++ '*' :: '*' :: ':' :: tail) = some (acc.reverse ++ q, tail)
  | [], acc, _, _ => by simp [boldScanAux]
  | c :: q', acc, hq, hlast => by
    have hc : c ≠ '*' := hq c (by simp)
    rw [List.cons_append]
    show boldScanAux acc (c :: (q' ++ '*' :: '*' :: ':' :: tail)) = _
    rw [boldScanAux]
    have h1 : ¬(c = ':' ∧ (q' ++ '*' :: '*' :: ':' :: tail).take 2 = ['*', '*']) := by
      rintro ⟨hcc, htake⟩
      cases q' with
      | nil =>
        subst hcc
        exact hlast (by simp)
      | cons d q'' =>
        have hd : d ≠ '*' := hq d (by simp)
        simp [List.cons_append] at htake
        exact hd htake.1
    have h2 : ¬(c = '*' ∧ (q' ++ '*' :: '*' :: ':' :: tail).take 2 = ['*', ':']) :=
      fun h => hc h.1
    rw [if_neg h1, if_neg h2, if_neg hc]
    have hq' : ∀ d ∈ q', d ≠ '*' := fun d hd => hq d (by simp [hd])
    have hlast' : q'.getLast? ≠ some ':' := by
      cases q' with
      | nil => simp
      | cons d q'' => rw [← List.getLast?_cons_cons (a := c)]; exact hlast
    rw [boldScanAux_run tail q' (c :: acc) hq' hlast']
    simp

/-- `stripChars` is the identity on a character list with no leading or
trailing whitespace. -/
lemma stripChars_eq_self (l : List Char)
    (hl : l.dropWhile Char.isWhitespace = l)
    (hr : l.reverse.dropWhile Char.isWhitespace = l.reverse) :
    stripChars l = l := by
  unfold stripChars
  rw [hl, hr, List.reverse_reverse]

/-- C3 (amended): the framing round-trip
`extract(format(N, C, false)) = (N, C)` holds for every nonempty name `N`
that contains no `*`, does not end in `:`, and carries no surrounding
whitespace, and every content `C` without a leading name pattern and without
surrounding whitespace (the original claim already excepts whitespace-level
differences). -/
theorem C3_framing_round_trip (N C : String)
    (hN0 : N ≠ "")
    (hNstar : ∀ c ∈ N.data, c ≠ '*')
    (hNcolon : N.data.getLast? ≠ some ':')
    (hNl : N.data.dropWhile Char.isWhitespace = N.data)
    (hNr : N.data.reverse.dropWhile Char.isWhitespace = N.data.reverse)
    (hCl : C.data.dropWhile Char.isWhitespace = C.data)
    (hCr : C.data.reverse.dropWhile Char.isWhitespace = C.data.reverse)
    (_hCnoname : (extract_username_and_content C).1 = none) :
    extract_username_and_content (format_with_username (some N) C false)
      = (some N, C) := by
  have hfmt : format_with_username (some N) C false = "**" ++ N ++ "**: " ++ C := by
    simp [format_with_username, hN0]
  have hdata : ("**" ++ N ++ "**: " ++ C).data
      = '*' :: '*' :: (N.data ++ '*' :: '*' :: ':' :: ' ' :: C.data) := by
    show (['*', '*'] ++ N.data ++ ['*', '*', ':', ' '] ++ C.data) = _
    simp
  obtain ⟨c₀, N', hN'⟩ : ∃ c₀ N', N.data = c₀ :: N' := by
    cases hd : N.data with
    | nil => exact absurd (by ext1; rw [hd]) hN0
    | cons a l => exact ⟨a, l, rfl⟩
  have hc₀ : c₀ ≠ '*' := hNstar c₀ (by rw [hN']; simp)
  unfold extract_username_and_content
  rw [hfmt, hdata, show stripTimestampPrefix
      ('*' :: '*' :: (N.data ++ '*' :: '*' :: ':' :: ' ' :: C.data))
      = '*' :: '*' :: (N.data ++ '*' :: '*' :: ':' :: ' ' :: C.data) from rfl]
  rw [hN', List.cons_append]
  show (match matchBoldUsername ('*' :: '*' :: c₀ :: (N' ++ '*' :: '*' :: ':' :: ' ' :: C.data)) with
    | some (u, rest) =>
      (some (String.mk (stripChars u)),
        String.mk (stripChars (rest.dropWhile Char.isWhitespace)))
    | none => _) = _
  rw [show matchBoldUsername ('*' :: '*' :: c₀ :: (N' ++ '*' :: '*' :: ':' :: ' ' :: C.data))
      = if c₀ = '*' then none
        else boldScanAux [c₀] (N' ++ '*' :: '*' :: ':' :: ' ' :: C.data) from rfl,
    if_neg hc₀]
  have hq' : ∀ d ∈ N', d ≠ '*' := fun d hd => hNstar d (by rw [hN']; simp [hd])
  have hlast' : N'.getLast? ≠ some ':' := by
    cases N' with
    | nil => simp
    | cons d q'' =>
      rw [hN', List.getLast?_cons_cons] at hNcolon
      exact hNcolon
  rw [boldScanAux_run (' ' :: C.data) N' [c₀] hq' hlast']
  have hstripN : stripChars ([c₀].reverse ++ N') = N.data := by
    rw [show ([c₀].reverse ++ N' : List Char) = c₀ :: N' from rfl, ← hN']
    exact stripChars_eq_self N.data hNl hNr
  have hdropC : (' ' :: C.data).dropWhile Char.isWhitespace = C.data := by
    rw [List.dropWhile_cons_of_pos (by decide)]
    exact hCl
  show (some (String.mk (stripChars ([c₀].reverse ++ N'))),
      String.mk (stripChars ((' ' :: C.data).dropWhile Char.isWhitespace)))
    = (some N, C)
  rw [hstripN, hdropC, stripChars_eq_self C.data hCl hCr]

/-- Counterexample to C3 as stated: for the name `a*b` (which contains `*`)
and the pattern-free content `hi`, formatting and re-extracting does not
recover the name — the extraction returns `**a*b**` instead. -/
theorem C3_counterexample :
    extract_username_and_content (format_with_username (some "a*b") "hi" false)
        ≠ (some "a*b", "hi")
    ∧ extract_username_and_content (format_with_username (some "a*b") "hi" false)
        = (some "**a*b**", "hi")
    ∧ (extract_username_and_content "hi").1 = none := by decide

/-- Witness for C3 (amended) at a concrete name and content. -/
theorem C3_framing_round_trip_witness :
    extract_username_and_content (format_with_username (some "Somchai") "hello world" false)
      = (some "Somchai", "hello world") :=
  C3_framing_round_trip "Somchai" "hello world" (by decide) (by decide) (by decide)
    (by decide) (by decide) (by decide) (by decide) (by decide)

/-! ## Extraction pipeline (claim C8) -/

/-- C8 (amended): `extract_username_and_content` first strips a recognized
leading timestamp token, then tries the bold patterns (`**Name:**` /
`**Name**:`, a single alternation) and then the generic `Name:` fallback,
which accepts names strictly shorter than 50 characters (`< 50`, not `≤ 50`);
the first successful pattern wins, and when no pattern applies the result is
name absent with content equal to the input after timestamp stripping. -/
theorem C8_extract_pipeline :
    (∀ (s : String) (u rest : List Char),
        matchBoldUsername (stripTimestampPrefix s.data) = some (u, rest) →
        extract_username_and_content s
          = (some (String.mk (stripChars u)),
             String.mk (stripChars (rest.dropWhile Char.isWhitespace))))
    ∧ (∀ (s : String) (u rest : List Char),
        matchBoldUsername (stripTimestampPrefix s.data) = none →
        matchSimpleUsername (stripTimestampPrefix s.data) = some (u, rest) →
        u.length < 50 →
        extract_username_and_content s
          = (some (String.mk (stripChars u)),
             String.mk (stripChars (rest.dropWhile Char.isWhitespace))))
    ∧ (∀ (s : String) (u rest : List Char),
        matchBoldUsername (stripTimestampPrefix s.data) = none →
        matchSimpleUsername (stripTimestampPrefix s.data) = some (u, rest) →
        50 ≤ u.length →
        extract_username_and_content s
          = (none, String.mk (stripTimestampPrefix s.data)))
    ∧ (∀ s : String,
        matchBoldUsername (stripTimestampPrefix s.data) = none →
        matchSimpleUsername (stripTimestampPrefix s.data) = none →
        extract_username_and_content s
          = (none, String.mk (stripTimestampPrefix s.data)))
    ∧ extract_username_and_content "<t:1234567890:t> **Somchai:** sawasdee"
        = (some "Somchai", "sawasdee")
    ∧ extract_username_and_content "**Eco**: hi" = (some "Eco", "hi")
    ∧ extract_username_and_content (String.mk (List.replicate 49 'A') ++ ": hi")
        = (some (String.mk (List.replicate 49 'A')), "hi") := by
  refine ⟨?_, ?_, ?_, ?_, by decide, by decide, by decide⟩
  · intro s u rest hbold
    simp only [extract_username_and_content, hbold]
  · intro s u rest hbold hsimple hlen
    simp only [extract_username_and_content, hbold, hsimple, if_pos hlen]
  · intro s u rest hbold hsimple hlen
    simp only [extract_username_and_content, hbold, hsimple, if_neg (by omega : ¬u.length < 50)]
  · intro s hbold hsimple
    simp only [extract_username_and_content, hbold, hsimple]

/-- Counterexample to C8 as stated: a fallback name of exactly 50 characters
is rejected (the code requires `len < 50`, the claim says `≤ 50` is
accepted), and the no-match content is the timestamp-stripped input, not the
raw input. -/
theorem C8_counterexample :
    extract_username_and_content
        ("<t:1:t> " ++ String.mk (List.replicate 50 'A') ++ ": hi")
      = (none, String.mk (List.replicate 50 'A') ++ ": hi")
    ∧ extract_username_and_content
        ("<t:1:t> " ++ String.mk (List.replicate 50 'A') ++ ": hi")
      ≠ (some (String.mk (List.replicate 50 'A')), "hi")
    ∧ (String.mk (List.replicate 50 'A') ++ ": hi")
      ≠ ("<t:1:t> " ++ String.mk (List.replicate 50 'A') ++ ": hi") := by decide

/-- Witness for C8 (amended) at a concrete fallback-pattern input. -/
theorem C8_extract_pipeline_witness :
    extract_username_and_content "Name: text"
      = (some (String.mk (stripChars "Name".data)),
         String.mk (stripChars (" text".data.dropWhile Char.isWhitespace))) :=
  C8_extract_pipeline.2.1 "Name: text" "Name".data " text".data
    (by decide) (by decide) (by decide)

/-! ## Dispatch loop lemmas (claims C1 and C5) -/

lemma callLlmWithToolsAux_calls_le {α : Type}
    (model : List ChatMsg → Option AssistantMsg)
    (jl : String → Except String α) (ex : String → α → String) :
    ∀ (fuel : Nat) (msgs : List ChatMsg),
      (callLlmWithToolsAux model jl ex fuel msgs).2 ≤ fuel := by
  intro fuel
  induction fuel with
  | zero => intro msgs; exact Nat.le_refl 0
  | succ n ih =>
    intro msgs
    cases hm : model msgs with
    | none => rw [callLlmWithToolsAux, hm]; exact Nat.le_add_left 1 n
    | some rm =>
      cases htc : rm.tool_calls with
      | nil =>
        rw [callLlmWithToolsAux, hm]
        simp only [htc]
        exact Nat.le_add_left 1 n
      | cons a l =>
        cases he : execToolCalls jl ex (a :: l) with
        | error e =>
          rw [callLlmWithToolsAux, hm]
          simp only [htc, he]
          exact Nat.le_add_left 1 n
        | ok toolMsgs =>
          rw [callLlmWithToolsAux, hm]
          simp only [htc, he]
          exact Nat.succ_le_succ (ih (msgs ++ [ChatMsg.assistant rm] ++ toolMsgs))

lemma callLlmWithToolsAux_stub {α : Type}
    (model : List ChatMsg → Option AssistantMsg)
    (jl : String → Except String α) (ex : String → α → String)
    (hstub : ∀ conv, ∃ rm, model conv = some rm
      ∧ ∃ tc, rm.tool_calls = [tc] ∧ ∃ a, jl tc.arguments = .ok a) :
    ∀ (fuel : Nat) (msgs : List ChatMsg),
      callLlmWithToolsAux model jl ex fuel msgs = (.answer tooComplexMsg, fuel) := by
  intro fuel
  induction fuel with
  | zero => intro msgs; rfl
  | succ n ih =>
    intro msgs
    obtain ⟨rm, hm, tc, htc, a, ha⟩ := hstub msgs
    have he : execToolCalls jl ex [tc]
        = .ok [ChatMsg.tool tc.id tc.name (ex tc.name a)] := by
      simp [execToolCalls, ha]
    rw [callLlmWithToolsAux, hm]
    simp only [htc, he, ih]

lemma execToolCalls_ok_of_parse {α : Type}
    (jl : String → Except String α) (ex : String → α → String)
    (hjl : ∀ s, ∃ a, jl s = .ok a) :
    ∀ tcs : List ToolCall, ∃ ms, execToolCalls jl ex tcs = .ok ms := by
  intro tcs
  induction tcs with
  | nil => exact ⟨[], rfl⟩
  | cons tc rest ih =>
    obtain ⟨a, ha⟩ := hjl tc.arguments
    obtain ⟨ms, hms⟩ := ih
    exact ⟨ChatMsg.tool tc.id tc.name (ex tc.name a) :: ms, by
      simp [execToolCalls, ha, hms]⟩

lemma callLlmWithToolsAux_no_raise {α : Type}
    (model : List ChatMsg → Option AssistantMsg)
    (jl : String → Except String α) (ex : String → α → String)
    (hjl : ∀ s, ∃ a, jl s = .ok a) :
    ∀ (fuel : Nat) (msgs : List ChatMsg) (e : String),
      (callLlmWithToolsAux model jl ex fuel msgs).1 ≠ .raised e := by
  intro fuel
  induction fuel with
  | zero => intro msgs e h; exact LoopOutcome.noConfusion h
  | succ n ih =>
    intro msgs e
    cases hm : model msgs with
    | none => rw [callLlmWithToolsAux, hm]; simp
    | some rm =>
      cases htc : rm.tool_calls with
      | nil =>
        rw [callLlmWithToolsAux, hm]
        simp only [htc]
        simp
      | cons a l =>
        obtain ⟨ms, hms⟩ := execToolCalls_ok_of_parse jl ex hjl (a :: l)
        rw [callLlmWithToolsAux, hm]
        simp only [htc, hms]
        exact ih (msgs ++ [ChatMsg.assistant rm] ++ ms) e

/-- C1: both dispatch loops always terminate within their iteration cap of
model invocations — 20 for the dev-assistant agent, 10 for the in-game
knowledge agent — whatever the model, argument parser and tool set do; and
for a model stub that always requests exactly one (parseable) tool call, each
loop returns the fixed capped-complexity message after exactly
`max_iterations` model invocations. -/
theorem C1_dispatch_loop_iteration_cap {α : Type}
    (model : List ChatMsg → Option AssistantMsg)
    (jsonLoads : String → Except String α) (executeTool : String → α → String)
    (hstub : ∀ conv, ∃ rm, model conv = some rm
      ∧ ∃ tc, rm.tool_calls = [tc] ∧ ∃ a, jsonLoads tc.arguments = .ok a) :
    (∀ {β : Type} (model' : List ChatMsg → Option AssistantMsg)
        (jl' : String → Except String β) (ex' : String → β → String)
        (msgs : List ChatMsg),
        (knowledge_call_llm_with_tools model' jl' ex' msgs).2 ≤ 10
        ∧ (devbot_call_llm_with_tools model' jl' ex' msgs).2 ≤ 20)
    ∧ (∀ msgs : List ChatMsg,
        knowledge_call_llm_with_tools model jsonLoads executeTool msgs
          = (.answer tooComplexMsg, 10))
    ∧ (∀ msgs : List ChatMsg,
        devbot_call_llm_with_tools model jsonLoads executeTool msgs
          = (.answer tooComplexMsg, 20)) := by
  refine ⟨fun model' jl' ex' msgs =>
      ⟨callLlmWithToolsAux_calls_le model' jl' ex' 10 msgs,
       callLlmWithToolsAux_calls_le model' jl' ex' 20 msgs⟩,
    fun msgs => callLlmWithToolsAux_stub model jsonLoads executeTool hstub 10 msgs,
    fun msgs => callLlmWithToolsAux_stub model jsonLoads executeTool hstub 20 msgs⟩

/-- Witness for C1: a concrete stub model that always requests one tool call
with parseable (empty-object) arguments drives both loops to the
capped-complexity message after exactly 10 resp. 20 model invocations. -/
theorem C1_dispatch_loop_iteration_cap_witness :
    knowledge_call_llm_with_tools
        (fun _ => some ⟨none, [⟨"call_1", "tool", "\x7b\x7d"⟩]⟩)
        (fun s => Except.ok s) (fun _ _ => "ok") []
      = (.answer tooComplexMsg, 10)
    ∧ devbot_call_llm_with_tools
        (fun _ => some ⟨none, [⟨"call_1", "tool", "\x7b\x7d"⟩]⟩)
        (fun s => Except.ok s) (fun _ _ => "ok") []
      = (.answer tooComplexMsg, 20) := by
  have h := C1_dispatch_loop_iteration_cap
    (fun _ => some ⟨none, [⟨"call_1", "tool", "\x7b\x7d"⟩]⟩)
    (fun s => Except.ok s) (fun _ _ => "ok")
    (fun _ => ⟨⟨none, [⟨"call_1", "tool", "\x7b\x7d"⟩]⟩, rfl,
      ⟨"call_1", "tool", "\x7b\x7d"⟩, rfl, "\x7b\x7d", rfl⟩)
  exact ⟨h.2.1 [], h.2.2 []⟩

/-- Counterexample to C5 as stated: a tool call whose `arguments` string is
not parseable JSON makes `json.loads` raise *outside* any `try`/`except`
(knowledge_cog.py line 465, devbot_cog.py line 304), so the exception
propagates out of the dispatch loop instead of being recorded as an
error-string tool result. -/
theorem C5_counterexample :
    (devbot_call_llm_with_tools (α := Unit)
        (fun _ => some ⟨none, [⟨"call_1", "search_files", "not json"⟩]⟩)
        (fun _ => .error "Expecting value: line 1 column 1 (char 0)")
        (fun _ _ => "result") []).1
      = .raised "Expecting value: line 1 column 1 (char 0)"
    ∧ (knowledge_call_llm_with_tools (α := Unit)
        (fun _ => some ⟨none, [⟨"call_1", "query_game_database", "not json"⟩]⟩)
        (fun _ => .error "Expecting value: line 1 column 1 (char 0)")
        (fun _ _ => "result") []).1
      = .raised "Expecting value: line 1 column 1 (char 0)" :=
  ⟨rfl, rfl⟩

/-- C5 (amended): exceptions raised while *executing* a tool are caught
inside `_execute_tool` and converted to an error string recorded as that
call's tool result, and an unknown tool name yields an error string rather
than an exception; consequently, when every tool-call argument string parses,
neither dispatch loop ever propagates an exception.  Tool-call arguments that
are *not* parseable JSON, however, raise out of the dispatch loop (the
`json.loads` call sits outside the `try`). -/
theorem C5_malformed_data_containment {α : Type} :
    (∀ (model : List ChatMsg → Option AssistantMsg)
        (jl : String → Except String α) (ex : String → α → String)
        (msgs : List ChatMsg), (∀ s, ∃ a, jl s = .ok a) →
        ∀ e : String,
          (knowledge_call_llm_with_tools model jl ex msgs).1 ≠ .raised e
          ∧ (devbot_call_llm_with_tools model jl ex msgs).1 ≠ .raised e)
    ∧ (∀ (tools : CodebaseTools α) (args : α) (e : String),
        tools.search_files args = .error e →
        devbot_execute_tool true tools "search_files" args
          = jsonError ("Tool execution failed: " ++ e))
    ∧ (∀ (tools : CodebaseTools α) (args : α) (name : String),
        name ∉ (["search_files", "read_file", "grep_search", "list_directory",
          "nix_hash_url"] : List String) →
        devbot_execute_tool true tools name args
          = jsonError ("Unknown tool: " ++ name))
    ∧ (∀ (jl : String → Except String α) (tools : CodebaseTools α)
        (id argstr : String) (args : α) (e : String),
        jl argstr = .ok args → tools.search_files args = .error e →
        execToolCalls jl (devbot_execute_tool true tools)
            [⟨id, "search_files", argstr⟩]
          = .ok [ChatMsg.tool id "search_files"
              (jsonError ("Tool execution failed: " ++ e))]) := by
  refine ⟨?_, ?_, ?_, ?_⟩
  · intro model jl ex msgs hjl e
    exact ⟨callLlmWithToolsAux_no_raise model jl ex hjl 10 msgs e,
      callLlmWithToolsAux_no_raise model jl ex hjl 20 msgs e⟩
  · intro tools args e he
    simp [devbot_execute_tool, he]
  · intro tools args name hname
    simp only [List.mem_cons, List.not_mem_nil, or_false, not_or] at hname
    obtain ⟨h1, h2, h3, h4, h5⟩ := hname
    simp [devbot_execute_tool, h1, h2, h3, h4, h5]
  · intro jl tools id argstr args e hjl he
    simp [execToolCalls, hjl, devbot_execute_tool, he]

/-- Witness for C5 (amended): with an always-succeeding argument parser the
knowledge loop cannot raise, and a failing `search_files` collaborator is
converted to an error-string result. -/
theorem C5_malformed_data_containment_witness :
    ((knowledge_call_llm_with_tools (α := String)
        (fun _ => some ⟨some "done", []⟩) (fun s => Except.ok s)
        (fun _ _ => "r") []).1 ≠ .raised "boom")
    ∧ devbot_execute_tool true
        (⟨fun _ => .error "disk failure", fun _ => .ok "", fun _ => .ok "",
          fun _ => .ok "", fun _ => .ok ""⟩ : CodebaseTools String)
        "search_files" "a"
      = jsonError "Tool execution failed: disk failure" := by
  refine ⟨((C5_malformed_data_containment (α := String)).1
      (fun _ => some ⟨some "done", []⟩) (fun s => Except.ok s)
      (fun _ _ => "r") [] (fun s => ⟨s, rfl⟩) "boom").1, ?_⟩
  exact (C5_malformed_data_containment (α := String)).2.1
    ⟨fun _ => .error "disk failure", fun _ => .ok "", fun _ => .ok "",
      fun _ => .ok "", fun _ => .ok ""⟩ "a" "disk failure" rfl

/-! ## Removed languages: sources skipped, targets kept (claim C10) -/

/-- C10: the removed-language exclusion (`malay`, `tagalog`) is applied only
when matching the source channel.  Over the default `LANGUAGE_CHANNELS` with
every channel resolvable and a deterministic translator, a user message in
the Thai channel still produces translated sends to the malay and tagalog
channels (with their own translation calls), while messages originating in
the malay or tagalog channels produce no effects at all. -/
theorem C10_removed_languages_still_targeted :
    RelayEffect.send 1346744692137791509 "**Somchai**: malay EN hello"
        ∈ processLangChannels demoEnv thaiMsg
    ∧ RelayEffect.targetCall "EN hello" "malay" ∈ processLangChannels demoEnv thaiMsg
    ∧ RelayEffect.send 1346744822660206623 "**Somchai**: tagalog EN hello"
        ∈ processLangChannels demoEnv thaiMsg
    ∧ RelayEffect.targetCall "EN hello" "tagalog" ∈ processLangChannels demoEnv thaiMsg
    ∧ processLangChannels demoEnv malayMsg = []
    ∧ processLangChannels demoEnv tagalogMsg = [] := by decide

/-! ## Relay fan-out lemmas (claims C2 and C6) -/

lemma length_filter_flatten {β : Type} (p : β → Bool) (L : List (List β)) :
    (L.flatten.filter p).length = (L.map (fun l => (l.filter p).length)).sum := by
  induction L with
  | nil => rfl
  | cons l L ih =>
    rw [List.flatten_cons, List.filter_append, List.length_append, ih,
      List.map_cons, List.sum_cons]

lemma sum_le_countP {β : Type} (f : β → Nat) (p : β → Prop) [DecidablePred p]
    (l : List β) (h : ∀ x ∈ l, f x ≤ if p x then 1 else 0) :
    (l.map f).sum ≤ l.countP (fun x => decide (p x)) := by
  induction l with
  | nil => simp
  | cons a l ih =>
    have ha := h a (by simp)
    have ihh := ih (fun x hx => h x (by simp [hx]))
    rw [List.map_cons, List.sum_cons, List.countP_cons]
    by_cases hp : p a
    · rw [if_pos hp] at ha
      rw [if_pos (by simpa using hp)]
      omega
    · rw [if_neg hp] at ha
      rw [if_neg (by simpa using hp)]
      omega

lemma sum_add_countP_le_length {β : Type} (f : β → Nat) (p : β → Prop)
    [DecidablePred p] (l : List β) (h : ∀ x ∈ l, f x ≤ if p x then 0 else 1) :
    (l.map f).sum + l.countP (fun x => decide (p x)) ≤ l.length := by
  induction l with
  | nil => simp
  | cons a l ih =>
    have ha := h a (by simp)
    have ihh := ih (fun x hx => h x (by simp [hx]))
    rw [List.map_cons, List.sum_cons, List.countP_cons, List.length_cons]
    by_cases hp : p a
    · rw [if_pos hp] at ha
      rw [if_pos (by simpa using hp)]
      omega
    · rw [if_neg hp] at ha
      rw [if_neg (by simpa using hp)]
      omega

lemma two_le_countP {β : Type} (p : β → Prop) [DecidablePred p] (l : List β)
    (a b : β) (ha : a ∈ l) (hb : b ∈ l) (hne : a ≠ b) (hpa : p a) (hpb : p b) :
    2 ≤ l.countP (fun x => decide (p x)) := by
  induction l with
  | nil => simp at ha
  | cons x xs ih =>
    rw [List.countP_cons]
    rcases List.mem_cons.mp ha with rfl | ha'
    · rcases List.mem_cons.mp hb with rfl | hb'
      · exact absurd rfl hne
      · have h1 : 0 < xs.countP (fun x => decide (p x)) :=
          List.countP_pos_iff.mpr ⟨b, hb', by simpa using hpb⟩
        rw [if_pos (by simpa using hpa)]
        omega
    · rcases List.mem_cons.mp hb with rfl | hb'
      · have h1 : 0 < xs.countP (fun x => decide (p x)) :=
          List.countP_pos_iff.mpr ⟨a, ha', by simpa using hpa⟩
        rw [if_pos (by simpa using hpb)]
        omega
      · have := ih ha' hb'
        split <;> omega

lemma one_le_countP {β : Type} (p : β → Prop) [DecidablePred p] (l : List β)
    (a : β) (ha : a ∈ l) (hpa : p a) :
    1 ≤ l.countP (fun x => decide (p x)) :=
  List.countP_pos_iff.mpr ⟨a, ha, by simpa using hpa⟩

lemma countP_snd_eq_count {β : Type} [DecidableEq β] (c : β) (l : List (String × β)) :
    l.countP (fun t => t.2 = c) = (l.map Prod.snd).count c := by
  induction l with
  | nil => rfl
  | cons x xs ih =>
    rw [List.countP_cons, List.map_cons, List.count_cons, ih]
    by_cases h : x.2 = c
    · simp [h]
    · simp [h, Ne.symm]

/-- Case analysis of the per-target loop body: either the entry is filtered
out (or unresolvable, or its translation failed and was caught empty), or it
produces its translation call and/or its single send to its own channel. -/
lemma perTargetEffects_cases (env : RelayEnv) (msg : InMsg) (lang : String)
    (chan : Nat) (translation : String) (t : String × Nat) :
    perTargetEffects env msg lang chan translation t = []
    ∨ (t.1 ≠ lang ∧ t.2 ≠ chan ∧ env.hasChannel t.2 = true ∧
        ((lang = "english" ∧
           (perTargetEffects env msg lang chan translation t
              = [RelayEffect.targetCall msg.content t.1]
            ∨ ∃ s, perTargetEffects env msg lang chan translation t
              = [RelayEffect.targetCall msg.content t.1, RelayEffect.send t.2 s]))
         ∨ (lang ≠ "english" ∧ t.1 = "english" ∧ translation ≠ "" ∧
             perTargetEffects env msg lang chan translation t
               = [RelayEffect.send t.2 (format_with_username (some (sendUsername msg))
                   translation msg.authorIsSelf)])
         ∨ (lang ≠ "english" ∧ t.1 ≠ "english" ∧
             (perTargetEffects env msg lang chan translation t
                = [RelayEffect.targetCall translation t.1]
              ∨ ∃ s, perTargetEffects env msg lang chan translation t
                = [RelayEffect.targetCall translation t.1, RelayEffect.send t.2 s])))) := by
  by_cases hg : t.1 ≠ lang ∧ t.2 ≠ chan
  · by_cases hh : env.hasChannel t.2 = true
    · by_cases hl : lang = "english"
      · rcases hr : env.translate_to_language msg.content t.1 with e | tr
        · have heq : perTargetEffects env msg lang chan translation t
              = [RelayEffect.targetCall msg.content t.1] := by
            unfold perTargetEffects
            rw [if_pos hg, if_pos hh, if_pos hl, hr]
          exact .inr ⟨hg.1, hg.2, hh, .inl ⟨hl, .inl heq⟩⟩
        · by_cases htr : tr = ""
          · have heq : perTargetEffects env msg lang chan translation t
                = [RelayEffect.targetCall msg.content t.1] := by
              unfold perTargetEffects
              rw [if_pos hg, if_pos hh, if_pos hl, hr]
              simp [htr]
            exact .inr ⟨hg.1, hg.2, hh, .inl ⟨hl, .inl heq⟩⟩
          · have heq : perTargetEffects env msg lang chan translation t
                = [RelayEffect.targetCall msg.content t.1,
                   RelayEffect.send t.2 (format_with_username (some (sendUsername msg))
                     tr msg.authorIsSelf)] := by
              unfold perTargetEffects
              rw [if_pos hg, if_pos hh, if_pos hl, hr]
              simp [htr]
            exact .inr ⟨hg.1, hg.2, hh, .inl ⟨hl, .inr ⟨_, heq⟩⟩⟩
      · by_cases he : t.1 = "english"
        · by_cases htr : translation = ""
          · have heq : perTargetEffects env msg lang chan translation t = [] := by
              unfold perTargetEffects
              rw [if_pos hg, if_pos hh, if_neg hl, if_pos he]
              simp [htr]
            exact .inl heq
          · have heq : perTargetEffects env msg lang chan translation t
                = [RelayEffect.send t.2 (format_with_username (some (sendUsername msg))
                    translation msg.authorIsSelf)] := by
              unfold perTargetEffects
              rw [if_pos hg, if_pos hh, if_neg hl, if_pos he]
              simp [htr]
            exact .inr ⟨hg.1, hg.2, hh, .inr (.inl ⟨hl, he, htr, heq⟩)⟩
        · rcases hr : env.translate_to_language translation t.1 with e | tr
          · have heq : perTargetEffects env msg lang chan translation t
                = [RelayEffect.targetCall translation t.1] := by
              unfold perTargetEffects
              rw [if_pos hg, if_pos hh, if_neg hl, if_neg he, hr]
            exact .inr ⟨hg.1, hg.2, hh, .inr (.inr ⟨hl, he, .inl heq⟩)⟩
          · by_cases htr : tr = ""
            · have heq : perTargetEffects env msg lang chan translation t
                  = [RelayEffect.targetCall translation t.1] := by
                unfold perTargetEffects
                rw [if_pos hg, if_pos hh, if_neg hl, if_neg he, hr]
                simp [htr]
              exact .inr ⟨hg.1, hg.2, hh, .inr (.inr ⟨hl, he, .inl heq⟩)⟩
            · have heq : perTargetEffects env msg lang chan translation t
                  = [RelayEffect.targetCall translation t.1,
                     RelayEffect.send t.2 (format_with_username (some (sendUsername msg))
                       tr msg.authorIsSelf)] := by
                unfold perTargetEffects
                rw [if_pos hg, if_pos hh, if_neg hl, if_neg he, hr]
                simp [htr]
              exact .inr ⟨hg.1, hg.2, hh, .inr (.inr ⟨hl, he, .inr ⟨_, heq⟩⟩)⟩
    · have heq : perTargetEffects env msg lang chan translation t = [] := by
        unfold perTargetEffects
        rw [if_pos hg, if_neg hh]
      exact .inl heq
  · have heq : perTargetEffects env msg lang chan translation t = [] := by
      unfold perTargetEffects
      rw [if_neg hg]
    exact .inl heq

lemma perTarget_filter_calls_le (env : RelayEnv) (msg : InMsg) (lang : String)
    (chan : Nat) (translation : String) (t : String × Nat) :
    ((perTargetEffects env msg lang chan translation t).filter isLlmCall).length
      ≤ if t.1 = lang ∨ t.1 = "english" then 0 else 1 := by
  rcases perTargetEffects_cases env msg lang chan translation t with heq |
    ⟨h1, h2, hh, ⟨hl, heq | ⟨s, heq⟩⟩ | ⟨hl, he, htr, heq⟩ | ⟨hl, he, heq | ⟨s, heq⟩⟩⟩
  · simp [heq]
  · have hpos : ¬(t.1 = lang ∨ t.1 = "english") := by
      rintro (h | h)
      · exact h1 h
      · exact h1 (h.trans hl.symm)
    simp [heq, isLlmCall, hpos]
  · have hpos : ¬(t.1 = lang ∨ t.1 = "english") := by
      rintro (h | h)
      · exact h1 h
      · exact h1 (h.trans hl.symm)
    simp [heq, isLlmCall, hpos]
  · simp [heq, isLlmCall]
  · have hpos : ¬(t.1 = lang ∨ t.1 = "english") := by
      rintro (h | h)
      · exact h1 h
      · exact he h
    simp [heq, isLlmCall, hpos]
  · have hpos : ¬(t.1 = lang ∨ t.1 = "english") := by
      rintro (h | h)
      · exact h1 h
      · exact he h
    simp [heq, isLlmCall, hpos]

lemma perTarget_filter_sends_le (env : RelayEnv) (msg : InMsg) (lang : String)
    (chan : Nat) (translation : String) (t : String × Nat) :
    ((perTargetEffects env msg lang chan translation t).filter isSend).length
      ≤ if t.1 = lang then 0 else 1 := by
  rcases perTargetEffects_cases env msg lang chan translation t with heq |
    ⟨h1, h2, hh, ⟨hl, heq | ⟨s, heq⟩⟩ | ⟨hl, he, htr, heq⟩ | ⟨hl, he, heq | ⟨s, heq⟩⟩⟩
  · simp [heq]
  all_goals simp [heq, isSend, h1]

lemma perTarget_filter_sendTo_le (env : RelayEnv) (msg : InMsg) (lang : String)
    (chan : Nat) (translation : String) (t : String × Nat) (c : Nat) :
    ((perTargetEffects env msg lang chan translation t).filter (isSendTo c)).length
      ≤ if t.2 = c then 1 else 0 := by
  rcases perTargetEffects_cases env msg lang chan translation t with heq |
    ⟨h1, h2, hh, ⟨hl, heq | ⟨s, heq⟩⟩ | ⟨hl, he, htr, heq⟩ | ⟨hl, he, heq | ⟨s, heq⟩⟩⟩
  · simp [heq]
  all_goals by_cases hc : t.2 = c
  all_goals simp [heq, isSendTo, hc]

lemma perTarget_no_send_chan (env : RelayEnv) (msg : InMsg) (lang : String)
    (chan : Nat) (translation : String) (t : String × Nat) :
    (perTargetEffects env msg lang chan translation t).filter (isSendTo chan) = [] := by
  rcases perTargetEffects_cases env msg lang chan translation t with heq |
    ⟨h1, h2, hh, ⟨hl, heq | ⟨s, heq⟩⟩ | ⟨hl, he, htr, heq⟩ | ⟨hl, he, heq | ⟨s, heq⟩⟩⟩
  · simp [heq]
  all_goals simp [heq, isSendTo, h2]

lemma perTarget_no_pivot (env : RelayEnv) (msg : InMsg) (lang : String)
    (chan : Nat) (translation : String) (t : String × Nat) :
    (perTargetEffects env msg lang chan translation t).filter isPivotCall = [] := by
  rcases perTargetEffects_cases env msg lang chan translation t with heq |
    ⟨h1, h2, hh, ⟨hl, heq | ⟨s, heq⟩⟩ | ⟨hl, he, htr, heq⟩ | ⟨hl, he, heq | ⟨s, heq⟩⟩⟩
  all_goals simp [heq, isPivotCall]

lemma perTarget_mem_targetCall (env : RelayEnv) (msg : InMsg) (lang : String)
    (chan : Nat) (translation : String) (t : String × Nat) (x tl : String)
    (hlang : lang ≠ "english")
    (hmem : RelayEffect.targetCall x tl
      ∈ perTargetEffects env msg lang chan translation t) :
    x = translation ∧ tl = t.1 ∧ tl ≠ "english" ∧ tl ≠ lang := by
  rcases perTargetEffects_cases env msg lang chan translation t with heq |
    ⟨h1, h2, hh, ⟨hl, heq | ⟨s, heq⟩⟩ | ⟨hl, he, htr, heq⟩ | ⟨hl, he, heq | ⟨s, heq⟩⟩⟩
  · rw [heq] at hmem; simp at hmem
  · exact absurd hl hlang
  · exact absurd hl hlang
  · rw [heq] at hmem; simp at hmem
  · rw [heq] at hmem
    simp only [List.mem_singleton, RelayEffect.targetCall.injEq] at hmem
    exact ⟨hmem.1, hmem.2, hmem.2 ▸ he, hmem.2 ▸ h1⟩
  · rw [heq] at hmem
    simp only [List.mem_cons, List.mem_singleton] at hmem
    rcases hmem with hmem | hmem
    · rw [RelayEffect.targetCall.injEq] at hmem
      exact ⟨hmem.1, hmem.2, hmem.2 ▸ he, hmem.2 ▸ h1⟩
    · exact absurd hmem (by simp)

lemma perTarget_english (env : RelayEnv) (msg : InMsg) (lang : String)
    (chan : Nat) (translation : String) (ce : Nat)
    (hl : lang ≠ "english") (hce : ce ≠ chan) (hch : env.hasChannel ce = true)
    (htr : translation ≠ "") :
    perTargetEffects env msg lang chan translation ("english", ce)
      = [RelayEffect.send ce (format_with_username (some (sendUsername msg))
          translation msg.authorIsSelf)] := by
  unfold perTargetEffects
  rw [if_pos ⟨hl.symm, hce⟩, if_pos hch, if_neg hl, if_pos rfl]
  simp [htr]

lemma sourceBlock_err (env : RelayEnv) (msg : InMsg) (lang : String) (chan : Nat)
    (e : String) (hl : lang ≠ "english")
    (hT : env.translate msg.content lang = .error e) :
    sourceBlock env msg lang chan
      = ([RelayEffect.pivotCall msg.content lang], false) := by
  unfold sourceBlock
  rw [if_pos hl, hT]

lemma sourceBlock_ok (env : RelayEnv) (msg : InMsg) (lang : String) (chan : Nat)
    (T : String) (hl : lang ≠ "english")
    (hT : env.translate msg.content lang = .ok T) :
    sourceBlock env msg lang chan
      = (RelayEffect.pivotCall msg.content lang ::
         RelayEffect.announce (msg.authorDisplayName ++ ": " ++ T) ::
         (env.channels.map (perTargetEffects env msg lang chan T)).flatten, true) := by
  unfold sourceBlock
  rw [if_pos hl, hT]

lemma sourceBlock_english (env : RelayEnv) (msg : InMsg) (chan : Nat) :
    sourceBlock env msg "english" chan
      = (RelayEffect.announce (msg.authorDisplayName ++ ": " ++ msg.content) ::
         (env.channels.map
           (perTargetEffects env msg "english" chan msg.content)).flatten, true) := by
  unfold sourceBlock
  rw [if_neg (fun h => h rfl)]

lemma processLangList_nil (env : RelayEnv) (msg : InMsg) :
    ∀ ℓ : List (String × Nat),
      (∀ e ∈ ℓ, (e.1 = "malay" ∨ e.1 = "tagalog") ∨ msg.channelId ≠ e.2) →
      processLangList env msg ℓ = []
  | [], _ => rfl
  | (l₀, c₀) :: rest, h => by
    have hrest := processLangList_nil env msg rest (fun e he => h e (by simp [he]))
    rw [processLangList]
    by_cases hs : l₀ = "malay" ∨ l₀ = "tagalog"
    · rw [if_pos hs]
      exact hrest
    · rcases h (l₀, c₀) (by simp) with hskip | hne
      · exact absurd hskip hs
      · rw [if_neg hs, if_neg hne]
        exact hrest

lemma processLangList_match (env : RelayEnv) (msg : InMsg) :
    ∀ (ℓ : List (String × Nat)) (lang : String) (chan : Nat),
      (ℓ.map Prod.snd).Nodup → (lang, chan) ∈ ℓ → msg.channelId = chan →
      ¬(lang = "malay" ∨ lang = "tagalog") →
      processLangList env msg ℓ = (sourceBlock env msg lang chan).1
  | [], lang, chan, _, hmem, _, _ => absurd hmem (by simp)
  | (l₀, c₀) :: rest, lang, chan, hnd, hmem, hch, hskip => by
    rw [List.map_cons, List.nodup_cons] at hnd
    rcases List.mem_cons.mp hmem with hhead | htail
    · injection hhead with h1 h2
      subst h1
      subst h2
      rw [processLangList, if_neg hskip, if_pos hch]
      have hrest : processLangList env msg rest = [] := by
        apply processLangList_nil
        intro e he
        right
        intro hc
        exact hnd.1 (List.mem_map.mpr ⟨e, he, hc.symm.trans hch⟩)
      rcases hsb : sourceBlock env msg lang chan with ⟨effs, b⟩
      cases b
      · rfl
      · rw [hrest]
        simp
    · have hc₀ : msg.channelId ≠ c₀ := by
        intro h
        exact hnd.1 (List.mem_map.mpr ⟨(lang, chan), htail, (h.symm.trans hch).symm⟩)
      rw [processLangList]
      by_cases hs : l₀ = "malay" ∨ l₀ = "tagalog"
      · rw [if_pos hs]
        exact processLangList_match env msg rest lang chan hnd.2 htail hch hskip
      · rw [if_neg hs, if_neg hc₀]
        exact processLangList_match env msg rest lang chan hnd.2 htail hch hskip

lemma processLangList_eq (env : RelayEnv) (msg : InMsg)
    (hnd : (env.channels.map Prod.snd).Nodup) :
    processLangList env msg env.channels = []
    ∨ ∃ lang chan, (lang, chan) ∈ env.channels ∧ msg.channelId = chan
        ∧ ¬(lang = "malay" ∨ lang = "tagalog")
        ∧ processLangList env msg env.channels = (sourceBlock env msg lang chan).1 := by
  by_cases hex : ∃ lang chan, (lang, chan) ∈ env.channels ∧ msg.channelId = chan
      ∧ ¬(lang = "malay" ∨ lang = "tagalog")
  · obtain ⟨lang, chan, hmem, hch, hskip⟩ := hex
    exact .inr ⟨lang, chan, hmem, hch, hskip,
      processLangList_match env msg env.channels lang chan hnd hmem hch hskip⟩
  · left
    apply processLangList_nil
    intro e he
    by_cases hs : e.1 = "malay" ∨ e.1 = "tagalog"
    · exact .inl hs
    · right
      intro hc
      exact hex ⟨e.1, e.2, by simpa using he, hc, hs⟩

/-- The four bounds on the flattened per-target effect lists of one source
block: translation-call and send counts against the group size, no send to
the source channel, and at most one send per channel. -/
lemma flatten_bounds (env : RelayEnv) (msg : InMsg) (lang : String) (chan : Nat)
    (T : String) (hids : (env.channels.map Prod.snd).Nodup) :
    (((env.channels.map (perTargetEffects env msg lang chan T)).flatten.filter
        isLlmCall).length
      + env.channels.countP (fun t => decide (t.1 = lang ∨ t.1 = "english"))
      ≤ env.channels.length)
    ∧ (((env.channels.map (perTargetEffects env msg lang chan T)).flatten.filter
        isSend).length
      + env.channels.countP (fun t => decide (t.1 = lang))
      ≤ env.channels.length)
    ∧ (env.channels.map (perTargetEffects env msg lang chan T)).flatten.filter
        (isSendTo chan) = []
    ∧ (∀ c : Nat,
        ((env.channels.map (perTargetEffects env msg lang chan T)).flatten.filter
          (isSendTo c)).length ≤ 1)
    ∧ (env.channels.map (perTargetEffects env msg lang chan T)).flatten.filter
        isPivotCall = [] := by
  refine ⟨?_, ?_, ?_, ?_, ?_⟩
  · rw [length_filter_flatten, List.map_map]
    exact sum_add_countP_le_length _ _ env.channels
      (fun t _ => perTarget_filter_calls_le env msg lang chan T t)
  · rw [length_filter_flatten, List.map_map]
    exact sum_add_countP_le_length _ _ env.channels
      (fun t _ => perTarget_filter_sends_le env msg lang chan T t)
  · apply List.eq_nil_of_length_eq_zero
    rw [length_filter_flatten, List.map_map]
    have hz : ∀ t ∈ env.channels,
        (Function.comp (fun l => (List.filter (isSendTo chan) l).length)
          (perTargetEffects env msg lang chan T)) t = 0 := by
      intro t _
      simp [Function.comp, perTarget_no_send_chan env msg lang chan T t]
    rw [List.map_congr_left hz]
    simp
  · intro c
    rw [length_filter_flatten, List.map_map]
    calc (env.channels.map _).sum
        ≤ env.channels.countP (fun t => decide (t.2 = c)) :=
          sum_le_countP _ _ env.channels
            (fun t _ => perTarget_filter_sendTo_le env msg lang chan T t c)
      _ = (env.channels.map Prod.snd).count c := countP_snd_eq_count c env.channels
      _ ≤ 1 := List.nodup_iff_count_le_one.mp hids c
  · apply List.eq_nil_of_length_eq_zero
    rw [length_filter_flatten, List.map_map]
    have hz : ∀ t ∈ env.channels,
        (Function.comp (fun l => (List.filter isPivotCall l).length)
          (perTargetEffects env msg lang chan T)) t = 0 := by
      intro t _
      simp [Function.comp, perTarget_no_pivot env msg lang chan T t]
    rw [List.map_congr_left hz]
    simp

lemma isLlmCall_announce (s : String) : isLlmCall (RelayEffect.announce s) = false := rfl

lemma isSend_announce (s : String) : isSend (RelayEffect.announce s) = false := rfl

lemma isSendTo_announce (c : Nat) (s : String) :
    isSendTo c (RelayEffect.announce s) = false := rfl

lemma isPivotCall_announce (s : String) :
    isPivotCall (RelayEffect.announce s) = false := rfl

lemma isLlmCall_pivotCall (x l : String) :
    isLlmCall (RelayEffect.pivotCall x l) = true := rfl

lemma isSend_pivotCall (x l : String) :
    isSend (RelayEffect.pivotCall x l) = false := rfl

lemma isSendTo_pivotCall (c : Nat) (x l : String) :
    isSendTo c (RelayEffect.pivotCall x l) = false := rfl

lemma isPivotCall_pivotCall (x l : String) :
    isPivotCall (RelayEffect.pivotCall x l) = true := rfl

/-- C2: for any message entering the language-channel fan-out over a group of
distinct channels containing the pivot (`english`) entry, at most K−1 LLM
translation calls are issued and at most K−1 sends are performed, no send
targets the message's own channel, and no channel receives more than one send
derived from the message. -/
theorem C2_bounded_fanout (env : RelayEnv) (msg : InMsg)
    (hids : (env.channels.map Prod.snd).Nodup)
    (heng : ∃ ce, ("english", ce) ∈ env.channels) :
    ((processLangChannels env msg).filter isLlmCall).length
        ≤ env.channels.length - 1
    ∧ ((processLangChannels env msg).filter isSend).length
        ≤ env.channels.length - 1
    ∧ (processLangChannels env msg).filter (isSendTo msg.channelId) = []
    ∧ ∀ c : Nat, ((processLangChannels env msg).filter (isSendTo c)).length ≤ 1 := by
  obtain ⟨ce, hce⟩ := heng
  unfold processLangChannels
  by_cases hbot : ¬msg.authorIsBot
  case neg =>
    rw [if_neg hbot]
    exact ⟨by simp, by simp, by simp, fun c => by simp⟩
  case pos =>
  rw [if_pos hbot]
  rcases processLangList_eq env msg hids with heq | ⟨lang, chan, hmem, hch, hskip, heq⟩
  · rw [heq]
    exact ⟨by simp, by simp, by simp, fun c => by simp⟩
  · subst hch
    by_cases hl : lang = "english"
    · subst hl
      have htr : processLangList env msg env.channels
          = RelayEffect.announce (msg.authorDisplayName ++ ": " ++ msg.content) ::
            (env.channels.map
              (perTargetEffects env msg "english" msg.channelId msg.content)).flatten := by
        rw [heq, sourceBlock_english]
      rw [htr]
      obtain ⟨hcalls, hsends, hchan_nil, hperc, _⟩ :=
        flatten_bounds env msg "english" msg.channelId msg.content hids
      have hcnt1 : 1 ≤ env.channels.countP
          (fun t => decide (t.1 = "english" ∨ t.1 = "english")) :=
        one_le_countP _ env.channels ("english", msg.channelId) hmem (by simp)
      have hcnt2 : 1 ≤ env.channels.countP (fun t => decide (t.1 = "english")) :=
        one_le_countP _ env.channels ("english", msg.channelId) hmem (by simp)
      refine ⟨?_, ?_, ?_, ?_⟩
      · simp only [List.filter_cons, isLlmCall_announce, Bool.false_eq_true, if_false]
        omega
      · simp only [List.filter_cons, isSend_announce, Bool.false_eq_true, if_false]
        omega
      · simp only [List.filter_cons, isSendTo_announce, Bool.false_eq_true, if_false]
        exact hchan_nil
      · intro c
        simp only [List.filter_cons, isSendTo_announce, Bool.false_eq_true, if_false]
        exact hperc c
    · have hKge2 : 2 ≤ env.channels.length := by
        have h2 := two_le_countP (fun _ => True) env.channels (lang, msg.channelId)
          ("english", ce) hmem hce
          (by intro h; injection h with h1 _; exact hl h1) trivial trivial
        calc 2 ≤ env.channels.countP (fun _ => decide True) := h2
          _ ≤ env.channels.length := List.countP_le_length _
      rcases hT : env.translate msg.content lang with e | T
      · have htr : processLangList env msg env.channels
            = [RelayEffect.pivotCall msg.content lang] := by
          rw [heq, sourceBlock_err env msg lang msg.channelId e hl hT]
        rw [htr]
        refine ⟨?_, by simp [isSend_pivotCall], by simp [isSendTo_pivotCall],
          fun c => by simp [isSendTo_pivotCall]⟩
        simp only [List.filter_cons, isLlmCall_pivotCall, eq_self_iff_true, if_true,
          List.filter_nil, List.length_cons, List.length_nil]
        omega
      · have htr : processLangList env msg env.channels
            = RelayEffect.pivotCall msg.content lang ::
              RelayEffect.announce (msg.authorDisplayName ++ ": " ++ T) ::
              (env.channels.map
                (perTargetEffects env msg lang msg.channelId T)).flatten := by
          rw [heq, sourceBlock_ok env msg lang msg.channelId T hl hT]
        rw [htr]
        obtain ⟨hcalls, hsends, hchan_nil, hperc, _⟩ :=
          flatten_bounds env msg lang msg.channelId T hids
        have hcnt1 : 2 ≤ env.channels.countP
            (fun t => decide (t.1 = lang ∨ t.1 = "english")) :=
          two_le_countP _ env.channels (lang, msg.channelId) ("english", ce) hmem hce
            (by intro h; injection h with h1 _; exact hl h1) (.inl rfl) (.inr rfl)
        have hcnt2 : 1 ≤ env.channels.countP (fun t => decide (t.1 = lang)) :=
          one_le_countP _ env.channels (lang, msg.channelId) hmem rfl
        refine ⟨?_, ?_, ?_, ?_⟩
        · simp only [List.filter_cons, isLlmCall_pivotCall, eq_self_iff_true, if_true,
            isLlmCall_announce, Bool.false_eq_true, if_false, List.length_cons]
          omega
        · simp only [List.filter_cons, isSend_pivotCall, isSend_announce,
            Bool.false_eq_true, if_false]
          omega
        · simp only [List.filter_cons, isSendTo_pivotCall, isSendTo_announce,
            Bool.false_eq_true, if_false]
          exact hchan_nil
        · intro c
          simp only [List.filter_cons, isSendTo_pivotCall, isSendTo_announce,
            Bool.false_eq_true, if_false]
          exact hperc c

/-- Witness for C2 at the default channel configuration: a user message in
the Thai channel over the 8-channel group. -/
theorem C2_bounded_fanout_witness :
    ((processLangChannels demoEnv thaiMsg).filter isLlmCall).length
        ≤ demoEnv.channels.length - 1
    ∧ ((processLangChannels demoEnv thaiMsg).filter isSend).length
        ≤ demoEnv.channels.length - 1
    ∧ (processLangChannels demoEnv thaiMsg).filter (isSendTo thaiMsg.channelId) = []
    ∧ ((processLangChannels demoEnv thaiMsg).filter
        (isSendTo 1346733584169435136)).length ≤ 1 := by
  have h := C2_bounded_fanout demoEnv thaiMsg (by decide)
    ⟨1346733584169435136, by decide⟩
  exact ⟨h.1, h.2.1, h.2.2.1, h.2.2.2 1346733584169435136⟩

/-- C6: a message arriving in a non-pivot language channel is translated to
the pivot language exactly once; that pivot translation is used verbatim in
the in-game announcement and as the English channel's send content, and every
further translation call takes the pivot translation (never the original
text) as input, targeting only non-pivot, non-source languages. -/
theorem C6_nonpivot_pivot_routing (env : RelayEnv) (msg : InMsg) (lang : String)
    (chan : Nat) (T : String)
    (hids : (env.channels.map Prod.snd).Nodup)
    (hmem : (lang, chan) ∈ env.channels)
    (hch : msg.channelId = chan)
    (hl : lang ≠ "english")
    (hskip : ¬(lang = "malay" ∨ lang = "tagalog"))
    (hbot : msg.authorIsBot = false)
    (hT : env.translate msg.content lang = .ok T) :
    (processLangChannels env msg).filter isPivotCall
        = [RelayEffect.pivotCall msg.content lang]
    ∧ RelayEffect.announce (msg.authorDisplayName ++ ": " ++ T)
        ∈ processLangChannels env msg
    ∧ (∀ x tl, RelayEffect.targetCall x tl ∈ processLangChannels env msg →
        x = T ∧ tl ≠ "english" ∧ tl ≠ lang)
    ∧ (∀ ce, ("english", ce) ∈ env.channels → env.hasChannel ce = true → T ≠ "" →
        RelayEffect.send ce (format_with_username (some (sendUsername msg)) T
          msg.authorIsSelf) ∈ processLangChannels env msg) := by
  subst hch
  have htr : processLangChannels env msg
      = RelayEffect.pivotCall msg.content lang ::
        RelayEffect.announce (msg.authorDisplayName ++ ": " ++ T) ::
        (env.channels.map
          (perTargetEffects env msg lang msg.channelId T)).flatten := by
    unfold processLangChannels
    rw [if_pos (by simp [hbot]),
      processLangList_match env msg env.channels lang msg.channelId hids hmem rfl hskip,
      sourceBlock_ok env msg lang msg.channelId T hl hT]
  rw [htr]
  obtain ⟨_, _, _, _, hpivot_nil⟩ := flatten_bounds env msg lang msg.channelId T hids
  refine ⟨?_, ?_, ?_, ?_⟩
  · simp only [List.filter_cons, isPivotCall_pivotCall, eq_self_iff_true, if_true,
      isPivotCall_announce, Bool.false_eq_true, if_false, hpivot_nil]
  · exact List.mem_cons_of_mem _ (List.mem_cons_self _ _)
  · intro x tl hmemx
    rcases List.mem_cons.mp hmemx with h | h
    · exact absurd h (by simp)
    rcases List.mem_cons.mp h with h' | h'
    · exact absurd h' (by simp)
    obtain ⟨l', hl', hx⟩ := List.mem_flatten.mp h'
    obtain ⟨t, ht, rfl⟩ := List.mem_map.mp hl'
    obtain ⟨h1, _, h3, h4⟩ :=
      perTarget_mem_targetCall env msg lang msg.channelId T t x tl hl hx
    exact ⟨h1, h3, h4⟩
  · intro ce hce hchan htr'
    have hcene : ce ≠ msg.channelId := by
      intro hqq
      have hpair := List.inj_on_of_nodup_map hids hce hmem hqq
      injection hpair with hf _
      exact hl hf.symm
    have hpe := perTarget_english env msg lang msg.channelId T ce hl hcene hchan htr'
    apply List.mem_cons_of_mem
    apply List.mem_cons_of_mem
    apply List.mem_flatten.mpr
    refine ⟨perTargetEffects env msg lang msg.channelId T ("english", ce),
      List.mem_map_of_mem _ hce, ?_⟩
    rw [hpe]
    simp

/-- Witness for C6 at the default configuration: a Thai-channel message with
the deterministic demo translator. -/
theorem C6_nonpivot_pivot_routing_witness :
    (processLangChannels demoEnv thaiMsg).filter isPivotCall
        = [RelayEffect.pivotCall "hello" "thai"]
    ∧ RelayEffect.announce "Somchai: EN hello" ∈ processLangChannels demoEnv thaiMsg
    ∧ RelayEffect.send 1346733584169435136 "**Somchai**: EN hello"
        ∈ processLangChannels demoEnv thaiMsg := by
  have h := C6_nonpivot_pivot_routing demoEnv thaiMsg "thai" 1346744784185983008
    "EN hello" (by decide) (by decide) rfl (by decide) (by decide) rfl rfl
  refine ⟨h.1, h.2.1, ?_⟩
  have hs := h.2.2.2 1346733584169435136 (by decide) rfl (by decide)
  have hfmt : format_with_username (some (sendUsername thaiMsg)) "EN hello"
      thaiMsg.authorIsSelf = "**Somchai**: EN hello" := rfl
  rw [hfmt] at hs
  exact hs

end AmcPeripheral
